import Mathlib

/-!
Shallow embedding of the study-group management bot (src/bot.py).

The SQLite store is modelled as a `Store` structure holding the four
tables as lists of rows, plus the autoincrement counters of the
`deadlines` and `schedules` tables.  Each handler of the source file
becomes a pure function on `Store`; the outcomes of external effects
(the chat platform privilege query, the attachment of an inbound
message, the success of posting or patching a message, delivery of a
scheduled message, the success of a store read) are passed in as
explicit parameters.  A failed store read inside a `try/except` block
is modelled by an `Option` parameter holding `none`.
-/

namespace StudyBot

/-- The hardcoded member seed list `MEMBERS` of bot.py. -/
def MEMBERS : List (Int × String) := [
  (1387393147, "Vamsee"),
  (8095569186, "Umesh"),
  (6931175630, "Chetan"),
  (6544711761, "Yashwanth"),
  (5477604530, "Karthik"),
  (6643208192, "Sanjith"),
  (5801384729, "Raghunandan"),
  (103419413, "Pavan")
]

/-- The `ADMINS` constant of bot.py (its comment says these users are
excluded from mentions when they use /tagall, but no handler reads it). -/
def ADMINS : List Int := [1387393147, 8095569186, 6643208192]

/-- One row of the `deadlines` table. -/
structure DeadlineRow where
  deadline_id : Nat
  title : String
  message_id : Nat
  chat_id : Int
  file_id : String
  created_at : Nat
deriving DecidableEq, Repr

/-- One row of the `schedules` table. -/
structure ScheduleRow where
  schedule_id : Nat
  run_time : Nat
  message : String
deriving DecidableEq, Repr

/-- The persistent store: the four tables, plus the autoincrement
counters used for fresh `deadline_id` and `schedule_id` values.
A completion row is the composite key (deadline_id, user_id). -/
structure Store where
  members : List (Int × String)
  deadlines : List DeadlineRow
  completions : List (Nat × Int)
  schedules : List ScheduleRow
  next_deadline_id : Nat
  next_schedule_id : Nat
deriving DecidableEq, Repr

/-- Insertion into a Python dict modelled on association lists: an
existing key keeps its position and gets the new value, a new key is
appended at the end. -/
def dictInsert (m : List (Int × String)) (k : Int) (v : String) :
    List (Int × String) :=
  if m.any (fun p => p.1 == k) then
    m.map (fun p => if p.1 == k then (p.1, v) else p)
  else m ++ [(k, v)]

/-- `get_all_member_ids` of bot.py: build a dict from the hardcoded
`MEMBERS`, then add/override with the rows read from the `members`
table.  `dbRows = none` models a failed store read (the `except`
branch), in which case only the hardcoded members remain. -/
def get_all_member_ids (dbRows : Option (List (Int × String))) :
    List (Int × String) :=
  let base := MEMBERS.foldl (fun acc p => dictInsert acc p.1 p.2) []
  match dbRows with
  | none => base
  | some rows => rows.foldl (fun acc p => dictInsert acc p.1 p.2) base

/-- `get_member_count` of bot.py. -/
def get_member_count (dbRows : Option (List (Int × String))) : Nat :=
  (get_all_member_ids dbRows).length

/-- `is_admin` of bot.py: the chat platform reports the member status
(`none` models the exception branch, which yields `False`). -/
def is_admin (memberStatus : Option String) : Bool :=
  match memberStatus with
  | some st => st == "administrator" || st == "creator"
  | none => false

/-- Step of the latest-deadline fold: keep the row created latest so
far (the earlier row on ties). -/
def latestStep (acc : Option DeadlineRow) (r : DeadlineRow) :
    Option DeadlineRow :=
  match acc with
  | none => some r
  | some m => if m.created_at < r.created_at then some r else some m

/-- `get_latest_deadline` of bot.py: `ORDER BY created_at DESC LIMIT 1`,
modelled as a fold keeping the row with the greatest creation time
(the first such row on ties). -/
def get_latest_deadline (s : Store) : Option DeadlineRow :=
  s.deadlines.foldl latestStep none

/-- Does the `completions` table hold a row for the composite key
(deadline d, user u)?  (The `SELECT * FROM completions WHERE ... ` check
of `completion_callback`.) -/
def pairMem (s : Store) (d : Nat) (u : Int) : Bool :=
  s.completions.any (fun p => p.1 == d && p.2 == u)

/-- Number of completion rows stored for the composite key (d, u). -/
def countPair (s : Store) (d : Nat) (u : Int) : Nat :=
  (s.completions.filter (fun p => p.1 == d && p.2 == u)).length

/-- Outcome of a completion button click as reported to the clicking
user: an "already completed" alert, a recorded completion with the
displayed tally, or a generic error alert. -/
inductive CompletionResult where
  | already
  | recorded (completed : Nat) (total : Nat)
  | error
deriving DecidableEq, Repr

/-- `completion_callback` of bot.py.  If a completion row for
(d, u) already exists the store is untouched and the user is told so.
Otherwise the row is inserted, the completion count for d is re-read
from the (same-connection, pre-commit) store, the total is re-read via
`get_member_count`, and the deadline title is looked up; if the title
lookup finds no row the exception branch runs and the uncommitted
insert is rolled back. -/
def completion_callback (s : Store) (d : Nat) (u : Int) :
    Store × CompletionResult :=
  if pairMem s d u then (s, CompletionResult.already)
  else
    let completions2 := s.completions ++ [(d, u)]
    let completedCount := (completions2.filter (fun p => p.1 == d)).length
    let totalMembers := get_member_count (some s.members)
    match s.deadlines.find? (fun r => r.deadline_id == d) with
    | none => (s, CompletionResult.error)
    | some _ =>
      ({ s with completions := completions2 },
       CompletionResult.recorded completedCount totalMembers)

/-- Iterate `n` completion signals from the same user for the same
deadline. -/
def applySignals (n : Nat) (s : Store) (d : Nat) (u : Int) : Store :=
  match n with
  | 0 => s
  | Nat.succ m => applySignals m (completion_callback s d u).1 d u

/-- Outcome of `/deadline remind`. -/
inductive RemindResult where
  | noDeadlines
  | allCompleted (title : String)
  | broadcast (title : String) (pending : List (Int × String))
deriving DecidableEq, Repr

/-- `deadline_remind` of bot.py: take the latest deadline, read the
roster, read the users with a completion row for that deadline, and
mention exactly the pending ones; if nobody is pending, report full
completion.  `dbRows` is the members-table read inside
`get_all_member_ids`. -/
def deadline_remind (s : Store) (dbRows : Option (List (Int × String))) :
    RemindResult :=
  match get_latest_deadline s with
  | none => RemindResult.noDeadlines
  | some row =>
    let allMembers := get_all_member_ids dbRows
    let completedUsers :=
      (s.completions.filter (fun q => q.1 == row.deadline_id)).map
        (fun q => q.2)
    let pending := allMembers.filter (fun p => !(completedUsers.contains p.1))
    if pending.isEmpty then RemindResult.allCompleted row.title
    else RemindResult.broadcast row.title pending

/-- Outcome of `/schedule`. -/
inductive ScheduleResult where
  | rejected
  | scheduled (id : Nat)
deriving DecidableEq, Repr

/-- `schedule_command` of bot.py after successful date parsing: a
time not strictly in the future is rejected with no store write; a
future time inserts a schedule row and arranges the one-time job. -/
def schedule_command (now : Nat) (runTime : Nat) (msg : String) (s : Store) :
    Store × ScheduleResult :=
  if runTime ≤ now then (s, ScheduleResult.rejected)
  else
    let sid := s.next_schedule_id
    ({ s with
        schedules := s.schedules ++ [⟨sid, runTime, msg⟩],
        next_schedule_id := sid + 1 },
     ScheduleResult.scheduled sid)

/-- `send_scheduled_message` of bot.py: on successful delivery the row
is deleted from the `schedules` table; if delivery raises, the except
branch runs and the row is left in place. -/
def send_scheduled_message (s : Store) (sid : Nat) (deliveryOk : Bool) :
    Store :=
  if deliveryOk then
    { s with schedules := s.schedules.filter (fun r => r.schedule_id != sid) }
  else s

/-- Per-session scratch state of the deadline conversation: `idle`
(no conversation / ConversationHandler.END) or awaiting a file with the
stored title (`WAITING_FOR_FILE` plus user_data["deadline_title"]). -/
inductive SessionState where
  | idle
  | awaitingFile (title : String)
deriving DecidableEq, Repr

/-- The attachment of an inbound message, already reduced to its
file id (for a photo, the highest-resolution variant). -/
inductive Attachment where
  | document (fid : String)
  | photo (fid : String)
  | video (fid : String)
deriving DecidableEq, Repr

/-- File id carried by an attachment. -/
def Attachment.fileId : Attachment → String
  | Attachment.document f => f
  | Attachment.photo f => f
  | Attachment.video f => f

/-- Outcome of posting the artifact to the chat. -/
inductive PostResult where
  | ok (messageId : Nat)
  | failed
deriving DecidableEq, Repr

/-- Reply sent by `deadline_receive_file`. -/
inductive FileReply where
  | retryPrompt
  | posted
  | errorReply
deriving DecidableEq, Repr

/-- `deadline_receive_file` of bot.py.  A message with no document,
photo or video is answered with a retry prompt and stays in
`WAITING_FOR_FILE`.  Otherwise: (a) a deadline row is inserted with
message_id placeholder 0 and committed (`insertOk = false` models a
store failure there, caught with no row written); (b) the artifact is
posted (`post`); (c) the message_id is patched into the row
(`patchOk`).  A failure in (b) or (c) hits the except branch: the
committed row of (a) stays, with message_id still 0, an error is
reported and the conversation ends. -/
def deadline_receive_file (s : Store) (sess : SessionState) (chatId : Int)
    (now : Nat) (att : Option Attachment) (insertOk : Bool)
    (post : PostResult) (patchOk : Bool) :
    Store × SessionState × FileReply :=
  let title :=
    match sess with
    | SessionState.awaitingFile t => t
    | SessionState.idle => "Study Material"
  match att with
  | none => (s, sess, FileReply.retryPrompt)
  | some a =>
    if !insertOk then (s, SessionState.idle, FileReply.errorReply)
    else
      let did := s.next_deadline_id
      let row : DeadlineRow := ⟨did, title, 0, chatId, a.fileId, now⟩
      let s1 := { s with
        deadlines := s.deadlines ++ [row],
        next_deadline_id := did + 1 }
      match post with
      | PostResult.failed => (s1, SessionState.idle, FileReply.errorReply)
      | PostResult.ok mid =>
        if patchOk then
          ({ s1 with deadlines := s1.deadlines.map (fun r =>
              if r.deadline_id == did then { r with message_id := mid }
              else r) },
           SessionState.idle, FileReply.posted)
        else (s1, SessionState.idle, FileReply.errorReply)

/-- Reply of the top-level `/deadline` dispatcher. -/
inductive DeadlineCmdResult where
  | rejectedNotAdmin
  | usageHelp
  | statusShown
  | remindRun (r : RemindResult)
  | promptFile (title : String)
deriving DecidableEq, Repr

/-- `deadline_command` of bot.py: non-admins are rejected before
anything else happens; otherwise the first argument routes to the
status or remind subcommand, and any other non-empty argument list is
the title of a new deadline, stored in scratch state while the session
moves to `WAITING_FOR_FILE`. -/
def deadline_command (memberStatus : Option String) (args : List String)
    (sess : SessionState) (s : Store) :
    SessionState × Store × DeadlineCmdResult :=
  if !(is_admin memberStatus) then
    (sess, s, DeadlineCmdResult.rejectedNotAdmin)
  else
    match args with
    | [] => (sess, s, DeadlineCmdResult.usageHelp)
    | a :: _ =>
      if a.toLower == "status" then (sess, s, DeadlineCmdResult.statusShown)
      else if a.toLower == "remind" then
        (sess, s, DeadlineCmdResult.remindRun (deadline_remind s (some s.members)))
      else
        let title := " ".intercalate args
        (SessionState.awaitingFile title, s,
         DeadlineCmdResult.promptFile title)

/-- Reply of `/mention` (and its `/tagall` alias). -/
inductive MentionResult where
  | onlyGroups
  | notAdmin
  | noMembers
  | sent (mentions : List (Int × String)) (customMessage : Option String)
deriving DecidableEq, Repr

/-- `mention_command` of bot.py: group-only, admin-only; reads the
roster and, unless it is empty, mentions every member of it (no
filtering of any kind, in particular `ADMINS` is never consulted). -/
def mention_command (chatType : String) (memberStatus : Option String)
    (dbRows : Option (List (Int × String))) (args : List String) :
    MentionResult :=
  if !(chatType == "group" || chatType == "supergroup") then
    MentionResult.onlyGroups
  else if !(is_admin memberStatus) then MentionResult.notAdmin
  else
    let members := get_all_member_ids dbRows
    if members.isEmpty then MentionResult.noMembers
    else
      MentionResult.sent members
        (if args.isEmpty then none else some (" ".intercalate args))

/-- `/tagall` is registered with the same handler as `/mention`. -/
def tagall_command : String → Option String →
    Option (List (Int × String)) → List String → MentionResult :=
  mention_command

/-! ### Helper lemmas about the completion callback -/

theorem callback_of_pairMem (s : Store) (d : Nat) (u : Int)
    (h : pairMem s d u = true) :
    completion_callback s d u = (s, CompletionResult.already) := by
  simp [completion_callback, h]

theorem callback_store_cases (s : Store) (d : Nat) (u : Int) :
    (completion_callback s d u).1 = s ∨
      (pairMem s d u = false ∧
        (completion_callback s d u).1 =
          { s with completions := s.completions ++ [(d, u)] }) := by
  by_cases h : pairMem s d u = true
  · left
    simp [completion_callback, h]
  · rcases hf : s.deadlines.find? (fun r => r.deadline_id == d) with _ | r
    · left
      simp [completion_callback, h, hf]
    · right
      refine ⟨by simpa using h, ?_⟩
      simp [completion_callback, h, hf]

theorem pairMem_append_self (s : Store) (d : Nat) (u : Int) :
    pairMem { s with completions := s.completions ++ [(d, u)] } d u = true := by
  simp [pairMem]

theorem applySignals_of_pairMem (n : Nat) (s : Store) (d : Nat) (u : Int)
    (h : pairMem s d u = true) : applySignals n s d u = s := by
  induction n with
  | zero => rfl
  | succ m ih => simp [applySignals, callback_of_pairMem s d u h, ih]

theorem countPair_append_self (s : Store) (d : Nat) (u : Int) :
    countPair { s with completions := s.completions ++ [(d, u)] } d u =
      countPair s d u + 1 := by
  simp [countPair, List.filter_append]

/-- Claim C1: for every deadline id and user id, over any sequence of
repeated completion signals the stored completion count for that
(deadline, user) pair grows by at most one; and once a completion row
for the pair exists, a further signal is acknowledged with the
"already completed" alert, leaving the store (hence the displayed
tally) untouched. -/
theorem completion_signal_idempotent (n : Nat) (s : Store) (d : Nat) (u : Int) :
    countPair (applySignals n s d u) d u ≤ countPair s d u + 1 ∧
    (pairMem s d u = true →
      completion_callback s d u = (s, CompletionResult.already)) := by
  constructor
  · induction n generalizing s with
    | zero =>
      simp [applySignals]
    | succ m ih =>
      have hstep : applySignals (Nat.succ m) s d u =
          applySignals m (completion_callback s d u).1 d u := rfl
      rw [hstep]
      rcases callback_store_cases s d u with h1 | ⟨hm, h1⟩
      · rw [h1]
        exact ih s
      · rw [h1, applySignals_of_pairMem m _ d u (pairMem_append_self s d u),
          countPair_append_self]
  · exact callback_of_pairMem s d u

/-- Sample store: one deadline (id 5) already completed by user 10. -/
def W1 : Store :=
  { members := []
    deadlines := [⟨5, "HW1", 0, 0, "f", 0⟩]
    completions := [(5, 10)]
    schedules := []
    next_deadline_id := 6
    next_schedule_id := 1 }

theorem completion_signal_idempotent_witness :
    pairMem W1 5 10 = true ∧
      completion_callback W1 5 10 = (W1, CompletionResult.already) :=
  ⟨by decide, (completion_signal_idempotent 2 W1 5 10).2 (by decide)⟩

/-- Claim C2: a successful completion signal answers with the tally
`completed / total` where `completed` is re-read from the resulting
store as the number of completion rows for that deadline (pairwise
distinct users, since the rows are unique by the composite key) and
`total` is the size of the merged roster (seed list overlaid with the
members table) — no cached value. -/
theorem completion_tally_fresh (s : Store) (d : Nat) (u : Int)
    (habs : pairMem s d u = false)
    (hdead : (s.deadlines.find? (fun r => r.deadline_id == d)).isSome = true)
    (hnd : s.completions.Nodup) :
    ∃ s2, completion_callback s d u =
        (s2, CompletionResult.recorded
          ((s2.completions.filter (fun p => p.1 == d)).length)
          (get_member_count (some s2.members))) ∧
      s2.members = s.members ∧
      ((s2.completions.filter (fun p => p.1 == d)).map (fun p => p.2)).Nodup := by
  rcases Option.isSome_iff_exists.mp hdead with ⟨r, hr⟩
  refine ⟨{ s with completions := s.completions ++ [(d, u)] }, ?_, rfl, ?_⟩
  · simp [completion_callback, habs, hr]
  · have hnotmem : (d, u) ∉ s.completions := by
      intro hmem
      have hpm : pairMem s d u = true :=
        List.any_eq_true.mpr ⟨(d, u), hmem, by simp⟩
      rw [habs] at hpm
      exact Bool.false_ne_true hpm
    have hnd2 :
        ((s.completions ++ [(d, u)]).filter (fun p => p.1 == d)).Nodup := by
      apply List.Nodup.filter
      rw [List.nodup_append]
      refine ⟨hnd, List.nodup_singleton _, ?_⟩
      intro a ha hb
      rw [List.mem_singleton] at hb
      subst hb
      exact hnotmem ha
    refine List.Nodup.map_on ?_ hnd2
    intro x hx y hy hxy
    have h1 : x.1 = d := by
      have := (List.mem_filter.mp hx).2
      simpa using this
    have h2 : y.1 = d := by
      have := (List.mem_filter.mp hy).2
      simpa using this
    cases x
    cases y
    simp only at h1 h2 hxy
    subst h1
    subst h2
    subst hxy
    rfl

/-- Sample store: one deadline (id 7), nobody has completed it yet. -/
def W2 : Store :=
  { members := [(42, "Zoe")]
    deadlines := [⟨7, "Essay", 3, 0, "g", 1⟩]
    completions := []
    schedules := []
    next_deadline_id := 8
    next_schedule_id := 1 }

theorem completion_tally_fresh_witness :
    (pairMem W2 7 10 = false ∧
      (W2.deadlines.find? (fun r => r.deadline_id == 7)).isSome = true ∧
      W2.completions.Nodup) ∧
    (∃ s2, completion_callback W2 7 10 =
        (s2, CompletionResult.recorded
          ((s2.completions.filter (fun p => p.1 == 7)).length)
          (get_member_count (some s2.members))) ∧
      s2.members = W2.members ∧
      ((s2.completions.filter (fun p => p.1 == 7)).map (fun p => p.2)).Nodup) :=
  ⟨⟨by decide, by decide, by decide⟩,
    completion_tally_fresh W2 7 10 (by decide) (by decide) (by decide)⟩

/-- Claim C4: a schedule request whose time is not strictly in the
future is rejected with no store write; a strictly future request
persists one row, and that row is removed from the store exactly when
the one-time delivery succeeds (the store is back to its pre-request
table, the row is gone), while a failed delivery leaves the row in
place. -/
theorem schedule_lifecycle (now runTime : Nat) (msg : String) (s : Store)
    (hfresh : ∀ r ∈ s.schedules, r.schedule_id < s.next_schedule_id) :
    (runTime ≤ now →
      schedule_command now runTime msg s = (s, ScheduleResult.rejected)) ∧
    (now < runTime →
      ∃ s1, schedule_command now runTime msg s =
          (s1, ScheduleResult.scheduled s.next_schedule_id) ∧
        (⟨s.next_schedule_id, runTime, msg⟩ : ScheduleRow) ∈ s1.schedules ∧
        send_scheduled_message s1 s.next_schedule_id true =
          { s with next_schedule_id := s.next_schedule_id + 1 } ∧
        (⟨s.next_schedule_id, runTime, msg⟩ : ScheduleRow) ∉
          ({ s with next_schedule_id := s.next_schedule_id + 1 } : Store).schedules ∧
        send_scheduled_message s1 s.next_schedule_id false = s1) := by
  constructor
  · intro h
    simp [schedule_command, h]
  · intro h
    have hnle : ¬ runTime ≤ now := by omega
    refine ⟨{ s with
        schedules := s.schedules ++ [⟨s.next_schedule_id, runTime, msg⟩],
        next_schedule_id := s.next_schedule_id + 1 },
      by simp [schedule_command, hnle], by simp, ?_, ?_, rfl⟩
    · have hfil :
          (s.schedules ++ ([⟨s.next_schedule_id, runTime, msg⟩] :
              List ScheduleRow)).filter
            (fun r => r.schedule_id != s.next_schedule_id) = s.schedules := by
        rw [List.filter_append]
        have h1 : s.schedules.filter
            (fun r => r.schedule_id != s.next_schedule_id) = s.schedules := by
          apply List.filter_eq_self.mpr
          intro r hrm
          have := hfresh r hrm
          simp only [bne_iff_ne, ne_eq, decide_eq_true_eq]
          omega
        have h2 : (([⟨s.next_schedule_id, runTime, msg⟩] :
            List ScheduleRow)).filter
              (fun r => r.schedule_id != s.next_schedule_id) = [] := by
          simp
        rw [h1, h2, List.append_nil]
      simp only [send_scheduled_message, if_pos]
      rw [hfil]
    · intro hmem
      have hlt := hfresh _ hmem
      exact lt_irrefl _ hlt

/-- Sample store: everything empty, fresh counters. -/
def W3 : Store :=
  { members := []
    deadlines := []
    completions := []
    schedules := []
    next_deadline_id := 1
    next_schedule_id := 1 }

theorem schedule_lifecycle_witness :
    ∃ s1, schedule_command 5 10 "m" W3 =
        (s1, ScheduleResult.scheduled W3.next_schedule_id) ∧
      (⟨W3.next_schedule_id, 10, "m"⟩ : ScheduleRow) ∈ s1.schedules ∧
      send_scheduled_message s1 W3.next_schedule_id true =
        { W3 with next_schedule_id := W3.next_schedule_id + 1 } ∧
      (⟨W3.next_schedule_id, 10, "m"⟩ : ScheduleRow) ∉
        ({ W3 with next_schedule_id := W3.next_schedule_id + 1 } : Store).schedules ∧
      send_scheduled_message s1 W3.next_schedule_id false = s1 :=
  (schedule_lifecycle 5 10 "m" W3 (by simp [W3])).2 (by decide)

/-- Claim C5: once the deadline row has been inserted (and committed),
a failure while posting the artifact or while patching the posted
message id reports an error, ends the conversation (back to idle), and
leaves the inserted row in the store with its placeholder message id 0
— no rollback. -/
theorem deadline_post_failure_keeps_row (s : Store) (t : String) (cid : Int)
    (now : Nat) (a : Attachment) (post : PostResult) (patchOk : Bool)
    (hfail : post = PostResult.failed ∨ patchOk = false) :
    deadline_receive_file s (SessionState.awaitingFile t) cid now (some a)
        true post patchOk =
      ({ s with
          deadlines := s.deadlines ++
            [⟨s.next_deadline_id, t, 0, cid, a.fileId, now⟩],
          next_deadline_id := s.next_deadline_id + 1 },
       SessionState.idle, FileReply.errorReply) := by
  rcases hfail with h | h
  · subst h
    simp [deadline_receive_file]
  · subst h
    cases post with
    | failed => simp [deadline_receive_file]
    | ok mid => simp [deadline_receive_file]

theorem deadline_post_failure_keeps_row_witness :
    deadline_receive_file W3 (SessionState.awaitingFile "HW2") 9 4
        (some (Attachment.document "fid")) true PostResult.failed true =
      ({ W3 with
          deadlines := W3.deadlines ++
            [⟨W3.next_deadline_id, "HW2", 0, 9,
              (Attachment.document "fid").fileId, 4⟩],
          next_deadline_id := W3.next_deadline_id + 1 },
       SessionState.idle, FileReply.errorReply) :=
  deadline_post_failure_keeps_row W3 "HW2" 9 4 (Attachment.document "fid")
    PostResult.failed true (Or.inl rfl)

/-- Claim C7: while awaiting a file, a message with no document, photo
or video is answered with a retry prompt, the session stays in the
awaiting-file state with the same title, and the store is unchanged
(no deadline row); a subsequent message with a valid attachment then
inserts the row (message id patched in) and the session returns to
idle. -/
theorem awaiting_file_retry_then_success (s : Store) (t : String) (cid : Int)
    (now : Nat) (insertOk : Bool) (post : PostResult) (patchOk : Bool)
    (hfresh : ∀ r ∈ s.deadlines, r.deadline_id ≠ s.next_deadline_id) :
    deadline_receive_file s (SessionState.awaitingFile t) cid now none
        insertOk post patchOk =
      (s, SessionState.awaitingFile t, FileReply.retryPrompt) ∧
    (∀ (a : Attachment) (mid : Nat),
      deadline_receive_file s (SessionState.awaitingFile t) cid now (some a)
          true (PostResult.ok mid) true =
        ({ s with
            deadlines := s.deadlines ++
              [⟨s.next_deadline_id, t, mid, cid, a.fileId, now⟩],
            next_deadline_id := s.next_deadline_id + 1 },
         SessionState.idle, FileReply.posted)) := by
  constructor
  · rfl
  · intro a mid
    have hmap : (s.deadlines.map (fun r =>
        if r.deadline_id == s.next_deadline_id then { r with message_id := mid }
        else r)) = s.deadlines := by
      conv_rhs => rw [← List.map_id s.deadlines]
      apply List.map_congr_left
      intro r hr
      have : (r.deadline_id == s.next_deadline_id) = false := by
        simpa using hfresh r hr
      simp [this]
    simp only [deadline_receive_file, Bool.not_true, Bool.false_eq_true,
      if_false, if_true, List.map_append, hmap]
    simp

theorem awaiting_file_retry_then_success_witness :
    deadline_receive_file W2 (SessionState.awaitingFile "Notes") 9 4 none
        true PostResult.failed true =
      (W2, SessionState.awaitingFile "Notes", FileReply.retryPrompt) ∧
    (∀ (a : Attachment) (mid : Nat),
      deadline_receive_file W2 (SessionState.awaitingFile "Notes") 9 4 (some a)
          true (PostResult.ok mid) true =
        ({ W2 with
            deadlines := W2.deadlines ++
              [⟨W2.next_deadline_id, "Notes", mid, 9, a.fileId, 4⟩],
            next_deadline_id := W2.next_deadline_id + 1 },
         SessionState.idle, FileReply.posted)) :=
  awaiting_file_retry_then_success W2 "Notes" 9 4 true PostResult.failed true
    (by decide)

/-- Claim C8: a /deadline request from a caller without administrator
or creator status is rejected with a user-visible message, the session
state is returned untouched (no transition, no scratch title) and the
store is returned untouched (no new deadline row). -/
theorem deadline_nonadmin_no_change (st : Option String) (args : List String)
    (sess : SessionState) (s : Store) (h : is_admin st = false) :
    deadline_command st args sess s =
      (sess, s, DeadlineCmdResult.rejectedNotAdmin) := by
  simp [deadline_command, h]

theorem deadline_nonadmin_no_change_witness :
    deadline_command (some "member") ["Essay"] SessionState.idle W3 =
      (SessionState.idle, W3, DeadlineCmdResult.rejectedNotAdmin) :=
  deadline_nonadmin_no_change (some "member") ["Essay"] SessionState.idle W3
    (by decide)

/-! ### Association-list lemmas for the roster resolver -/

/-- First-match association lookup in an id to name list, the notion of
"the name the roster maps an id to". -/
def rosterLookup (j : Int) : List (Int × String) → Option String
  | [] => none
  | p :: rest => if p.1 == j then some p.2 else rosterLookup j rest

theorem rosterLookup_eq_none_of_keys (m : List (Int × String)) (j : Int)
    (h : ∀ p ∈ m, p.1 ≠ j) : rosterLookup j m = none := by
  induction m with
  | nil => rfl
  | cons p rest ih =>
    have h1 : p.1 ≠ j := h p (List.mem_cons_self p rest)
    have hbeq : (p.1 == j) = false := by
      simpa using h1
    simp only [rosterLookup, hbeq, Bool.false_eq_true, if_false]
    exact ih (fun q hq => h q (List.mem_cons_of_mem _ hq))

theorem rosterLookup_of_anykey_false (m : List (Int × String)) (j : Int)
    (h : m.any (fun p => p.1 == j) = false) : rosterLookup j m = none := by
  apply rosterLookup_eq_none_of_keys
  intro p hp
  have := List.any_eq_false.mp h p hp
  simpa using this

theorem rosterLookup_isSome_of_anykey (m : List (Int × String)) (j : Int)
    (h : m.any (fun p => p.1 == j) = true) :
    ∃ v, rosterLookup j m = some v := by
  induction m with
  | nil => simp at h
  | cons p rest ih =>
    by_cases hk : p.1 = j
    · exact ⟨p.2, by simp [rosterLookup, hk]⟩
    · have hbeq : (p.1 == j) = false := by simpa using hk
      rw [List.any_cons, hbeq, Bool.false_or] at h
      rcases ih h with ⟨v, hv⟩
      refine ⟨v, ?_⟩
      simp only [rosterLookup, hbeq, Bool.false_eq_true, if_false]
      exact hv

theorem rosterLookup_append_or (l1 l2 : List (Int × String)) (j : Int) :
    rosterLookup j (l1 ++ l2) =
      (rosterLookup j l1).or (rosterLookup j l2) := by
  induction l1 with
  | nil => simp [rosterLookup]
  | cons p rest ih =>
    by_cases hk : p.1 = j
    · simp [rosterLookup, hk]
    · have hbeq : (p.1 == j) = false := by simpa using hk
      simp only [List.cons_append, rosterLookup, hbeq, Bool.false_eq_true,
        if_false]
      exact ih

theorem rosterLookup_map_patch (m : List (Int × String)) (k : Int)
    (v : String) (j : Int) :
    rosterLookup j (m.map (fun p => if p.1 == k then (p.1, v) else p)) =
      if j = k then (rosterLookup j m).map (fun _ => v)
      else rosterLookup j m := by
  induction m with
  | nil =>
    simp only [List.map_nil, rosterLookup]
    split <;> rfl
  | cons p rest ih =>
    rw [List.map_cons]
    have hkey : ((if p.1 == k then (p.1, v) else p) : Int × String).1 = p.1 := by
      split <;> rfl
    by_cases hj : p.1 = j
    · by_cases hk : p.1 = k
      · have hb1 : (p.1 == k) = true := by simpa using hk
        have hjk : j = k := hj ▸ hk
        simp [rosterLookup, hb1, hj, hjk]
      · have hb1 : (p.1 == k) = false := by simpa using hk
        have hjk : ¬ j = k := fun e => hk (hj ▸ e.symm ▸ rfl)
        simp [rosterLookup, hb1, hj, hjk]
    · have hb2 : (p.1 == j) = false := by simpa using hj
      by_cases hk : p.1 = k
      · have hb1 : (p.1 == k) = true := by simpa using hk
        simp only [rosterLookup, hb1, if_true, hb2, Bool.false_eq_true,
          if_false]
        exact ih
      · have hb1 : (p.1 == k) = false := by simpa using hk
        simp only [rosterLookup, hb1, Bool.false_eq_true, if_false, hb2]
        exact ih

theorem rosterLookup_dictInsert (m : List (Int × String)) (k : Int)
    (v : String) (j : Int) :
    rosterLookup j (dictInsert m k v) =
      if j = k then some v else rosterLookup j m := by
  unfold dictInsert
  by_cases h : m.any (fun p => p.1 == k) = true
  · rw [if_pos h, rosterLookup_map_patch]
    by_cases hj : j = k
    · subst hj
      rcases rosterLookup_isSome_of_anykey m j h with ⟨w, hw⟩
      simp [hw]
    · simp [hj]
  · have hfalse : m.any (fun p => p.1 == k) = false :=
      Bool.eq_false_iff.mpr h
    rw [if_neg h, rosterLookup_append_or]
    by_cases hj : j = k
    · subst hj
      rw [rosterLookup_of_anykey_false m j hfalse]
      simp [rosterLookup]
    · have hbeq : (k == j) = false := by
        simpa using fun e => hj e.symm
      simp [rosterLookup, hbeq, hj]

theorem rosterLookup_foldl_dictInsert (rows : List (Int × String)) (j : Int)
    (h : (rows.map (fun p => p.1)).Nodup) :
    ∀ base : List (Int × String),
      rosterLookup j (rows.foldl (fun acc p => dictInsert acc p.1 p.2) base) =
        (rosterLookup j rows).or (rosterLookup j base) := by
  induction rows with
  | nil =>
    intro base
    simp [rosterLookup]
  | cons p rest ih =>
    intro base
    have hnd : (rest.map (fun q => q.1)).Nodup := by
      rw [List.map_cons, List.nodup_cons] at h
      exact h.2
    have hnotin : p.1 ∉ rest.map (fun q => q.1) := by
      rw [List.map_cons, List.nodup_cons] at h
      exact h.1
    rw [List.foldl_cons, ih hnd, rosterLookup_dictInsert]
    by_cases hj : j = p.1
    · have hnone : rosterLookup j rest = none := by
        apply rosterLookup_eq_none_of_keys
        intro q hq hqj
        have hq1 : q.1 = p.1 := hqj.trans hj
        exact hnotin (hq1 ▸ List.mem_map_of_mem (fun r => r.1) hq)
      have hb : (p.1 == j) = true := by
        simpa using hj.symm
      simp only [rosterLookup, hnone, hj, hb, if_true, Option.none_or]
      simp [hj ▸ hnone]
    · have hbeq : (p.1 == j) = false := by
        simpa using fun e => hj e.symm
      simp [rosterLookup, hbeq, hj]

/-- Claim C6: roster resolution starts from the static seed list and
overlays every members-table row, the store name winning on every id
collision (the mapped name of any id is the store name when the store
has the id, the seed name otherwise); on a failed store read the
result is exactly the static seed list. -/
theorem roster_resolution_spec :
    get_all_member_ids none = MEMBERS ∧
    ∀ rows : List (Int × String), (rows.map (fun p => p.1)).Nodup →
      ∀ j : Int, rosterLookup j (get_all_member_ids (some rows)) =
        (rosterLookup j rows).or (rosterLookup j MEMBERS) := by
  have hbase : MEMBERS.foldl (fun acc p => dictInsert acc p.1 p.2)
      ([] : List (Int × String)) = MEMBERS := by decide
  constructor
  · show MEMBERS.foldl (fun acc p => dictInsert acc p.1 p.2)
      ([] : List (Int × String)) = MEMBERS
    exact hbase
  · intro rows hnd j
    show rosterLookup j (rows.foldl (fun acc p => dictInsert acc p.1 p.2)
        (MEMBERS.foldl (fun acc p => dictInsert acc p.1 p.2)
          ([] : List (Int × String)))) = _
    rw [rosterLookup_foldl_dictInsert rows j hnd, hbase]

/-- Sample members-table read: one id overriding a seed name, one new. -/
def Wrows : List (Int × String) := [(6931175630, "ChetanX"), (99, "New")]

theorem roster_resolution_spec_witness :
    (Wrows.map (fun p => p.1)).Nodup ∧
      rosterLookup (6931175630 : Int) (get_all_member_ids (some Wrows)) =
        (rosterLookup (6931175630 : Int) Wrows).or
          (rosterLookup (6931175630 : Int) MEMBERS) :=
  ⟨by decide, roster_resolution_spec.2 Wrows (by decide) 6931175630⟩

/-! ### Roster size and seed-membership lemmas -/

theorem length_le_dictInsert (m : List (Int × String)) (k : Int) (v : String) :
    m.length ≤ (dictInsert m k v).length := by
  unfold dictInsert
  split
  · rw [List.length_map]
  · rw [List.length_append]
    omega

theorem length_le_foldl_dictInsert (rows : List (Int × String)) :
    ∀ base : List (Int × String),
      base.length ≤
        (rows.foldl (fun acc p => dictInsert acc p.1 p.2) base).length := by
  induction rows with
  | nil =>
    intro base
    exact le_refl _
  | cons p rest ih =>
    intro base
    rw [List.foldl_cons]
    exact le_trans (length_le_dictInsert base p.1 p.2) (ih _)

theorem anykey_dictInsert (m : List (Int × String)) (k : Int) (v : String)
    (j : Int) (h : m.any (fun p => p.1 == j) = true) :
    (dictInsert m k v).any (fun p => p.1 == j) = true := by
  rcases List.any_eq_true.mp h with ⟨q, hqmem, hqj⟩
  unfold dictInsert
  split
  · apply List.any_eq_true.mpr
    refine ⟨(if q.1 == k then (q.1, v) else q),
      List.mem_map_of_mem _ hqmem, ?_⟩
    split
    · simpa using hqj
    · exact hqj
  · rw [List.any_append, h, Bool.true_or]

theorem anykey_foldl_dictInsert (rows : List (Int × String)) (j : Int) :
    ∀ base : List (Int × String),
      base.any (fun p => p.1 == j) = true →
      (rows.foldl (fun acc p => dictInsert acc p.1 p.2) base).any
        (fun p => p.1 == j) = true := by
  induction rows with
  | nil =>
    intro base h
    exact h
  | cons p rest ih =>
    intro base h
    rw [List.foldl_cons]
    exact ih _ (anykey_dictInsert base p.1 p.2 j h)

theorem exists_name_of_anykey (m : List (Int × String)) (j : Int)
    (h : m.any (fun p => p.1 == j) = true) : ∃ nm, (j, nm) ∈ m := by
  rcases List.any_eq_true.mp h with ⟨q, hqmem, hqj⟩
  have hq1 : q.1 = j := by simpa using hqj
  rcases q with ⟨qk, qv⟩
  exact ⟨qv, by rw [← hq1]; exact hqmem⟩

/-- The merged roster always holds at least the 8 seed members. -/
theorem roster_length_ge_eight (dbRows : Option (List (Int × String))) :
    8 ≤ (get_all_member_ids dbRows).length := by
  have hbase8 : (MEMBERS.foldl (fun acc p => dictInsert acc p.1 p.2)
      ([] : List (Int × String))).length = 8 := by decide
  cases dbRows with
  | none => exact le_of_eq hbase8.symm
  | some rows =>
    show 8 ≤ (rows.foldl (fun acc p => dictInsert acc p.1 p.2)
        (MEMBERS.foldl (fun acc p => dictInsert acc p.1 p.2)
          ([] : List (Int × String)))).length
    calc 8 = (MEMBERS.foldl (fun acc p => dictInsert acc p.1 p.2)
        ([] : List (Int × String))).length := hbase8.symm
      _ ≤ _ := length_le_foldl_dictInsert rows _

/-- Every seed id stays in the merged roster under some name. -/
theorem seed_id_in_roster (dbRows : Option (List (Int × String))) (j : Int)
    (h : MEMBERS.any (fun p => p.1 == j) = true) :
    ∃ nm, (j, nm) ∈ get_all_member_ids dbRows := by
  apply exists_name_of_anykey
  have hbase : (MEMBERS.foldl (fun acc p => dictInsert acc p.1 p.2)
      ([] : List (Int × String))).any (fun p => p.1 == j) = true := by
    have hbeq : MEMBERS.foldl (fun acc p => dictInsert acc p.1 p.2)
        ([] : List (Int × String)) = MEMBERS := by decide
    rw [hbeq]
    exact h
  cases dbRows with
  | none => exact hbase
  | some rows => exact anykey_foldl_dictInsert rows j _ hbase

/-- The merged roster is never the empty list. -/
theorem roster_isEmpty_false (dbRows : Option (List (Int × String))) :
    (get_all_member_ids dbRows).isEmpty = false := by
  have h8 := roster_length_ge_eight dbRows
  cases hrost : get_all_member_ids dbRows with
  | nil =>
    rw [hrost] at h8
    simp at h8
  | cons a l => rfl

/-- Claim C9: whatever the members-table read yields, including a
failed read, the resolved roster contains at least the 8 hardcoded
seed members, the member count (tally denominator, status total) is at
least 8, and the mention command can never take its "no members
registered" branch. -/
theorem roster_never_empty (dbRows : Option (List (Int × String))) :
    8 ≤ get_member_count dbRows ∧
    (∀ p ∈ MEMBERS, ∃ nm, (p.1, nm) ∈ get_all_member_ids dbRows) ∧
    (∀ (chatType : String) (memberStatus : Option String)
       (args : List String),
      mention_command chatType memberStatus dbRows args ≠
        MentionResult.noMembers) := by
  refine ⟨roster_length_ge_eight dbRows, ?_, ?_⟩
  · intro p hp
    apply seed_id_in_roster
    have hall : ∀ q ∈ MEMBERS,
        MEMBERS.any (fun r => r.1 == q.1) = true := by decide
    exact hall p hp
  · intro ct st args hcontra
    have hne := roster_isEmpty_false dbRows
    unfold mention_command at hcontra
    by_cases h1 : (ct == "group" || ct == "supergroup") = true
    · by_cases h2 : is_admin st = true
      · simp only [h1, h2, Bool.not_true, Bool.false_eq_true, if_false,
          hne] at hcontra
        exact MentionResult.noConfusion hcontra
      · have h2f : is_admin st = false := Bool.eq_false_iff.mpr h2
        simp only [h1, h2f, Bool.not_true, Bool.not_false,
          Bool.false_eq_true, if_false, if_true] at hcontra
        exact MentionResult.noConfusion hcontra
    · have h1f : (ct == "group" || ct == "supergroup") = false :=
        Bool.eq_false_iff.mpr h1
      simp only [h1f, Bool.not_false, if_true] at hcontra
      exact MentionResult.noConfusion hcontra

theorem roster_never_empty_witness :
    8 ≤ get_member_count none ∧
      (∃ nm, ((1387393147 : Int), nm) ∈ get_all_member_ids none) ∧
      mention_command "group" (some "creator") none [] ≠
        MentionResult.noMembers :=
  ⟨(roster_never_empty none).1,
    (roster_never_empty none).2.1 (1387393147, "Vamsee") (by decide),
    (roster_never_empty none).2.2 "group" (some "creator") []⟩

/-- Claim C10: for an admin call in a group, /mention (and the /tagall
alias, registered with the same handler) broadcasts the whole resolved
roster as the mention list; nobody is filtered out, and in particular
every id of the ADMINS constant is mentioned (its "excluded from
mentions" comment notwithstanding, no handler consults it). -/
theorem mention_includes_admins (ct : String) (st : Option String)
    (dbRows : Option (List (Int × String))) (args : List String)
    (hg : ct = "group" ∨ ct = "supergroup") (ha : is_admin st = true) :
    (∃ m, mention_command ct st dbRows args =
        MentionResult.sent (get_all_member_ids dbRows) m) ∧
    (∀ a ∈ ADMINS, ∃ nm, (a, nm) ∈ get_all_member_ids dbRows) ∧
    tagall_command = mention_command := by
  have hgb : (ct == "group" || ct == "supergroup") = true := by
    rcases hg with h | h <;> simp [h]
  have hne := roster_isEmpty_false dbRows
  refine ⟨⟨(if args.isEmpty then none else some (" ".intercalate args)), ?_⟩,
    ?_, rfl⟩
  · unfold mention_command
    simp only [hgb, ha, Bool.not_true, Bool.false_eq_true, if_false, hne]
  · intro a hamem
    apply seed_id_in_roster
    have hall : ∀ b ∈ ADMINS, MEMBERS.any (fun r => r.1 == b) = true := by
      decide
    exact hall a hamem

theorem mention_includes_admins_witness :
    (∃ m, mention_command "group" (some "administrator") none [] =
        MentionResult.sent (get_all_member_ids none) m) ∧
    (∀ a ∈ ADMINS, ∃ nm, (a, nm) ∈ get_all_member_ids none) ∧
    tagall_command = mention_command :=
  mention_includes_admins "group" (some "administrator") none []
    (Or.inl rfl) (by decide)

/-! ### Latest-deadline and pending-set lemmas -/

theorem latest_aux (l : List DeadlineRow) :
    ∀ m : DeadlineRow,
      ∃ m2, l.foldl latestStep (some m) = some m2 ∧
      (m2 = m ∨ m2 ∈ l) ∧ m.created_at ≤ m2.created_at ∧
      ∀ r ∈ l, r.created_at ≤ m2.created_at := by
  induction l with
  | nil =>
    intro m
    exact ⟨m, rfl, Or.inl rfl, le_refl _, by simp⟩
  | cons r rest ih =>
    intro m
    rw [List.foldl_cons]
    have hstep : latestStep (some m) r =
        if m.created_at < r.created_at then some r else some m := rfl
    rw [hstep]
    by_cases hlt : m.created_at < r.created_at
    · rw [if_pos hlt]
      rcases ih r with ⟨m2, h1, h2, h3, h4⟩
      refine ⟨m2, h1, ?_, le_trans (le_of_lt hlt) h3, ?_⟩
      · rcases h2 with h2 | h2
        · exact Or.inr (h2 ▸ List.mem_cons_self r rest)
        · exact Or.inr (List.mem_cons_of_mem r h2)
      · intro q hq
        rcases List.mem_cons.mp hq with h | h
        · exact h ▸ h3
        · exact h4 q h
    · rw [if_neg hlt]
      rcases ih m with ⟨m2, h1, h2, h3, h4⟩
      refine ⟨m2, h1, ?_, h3, ?_⟩
      · rcases h2 with h2 | h2
        · exact Or.inl h2
        · exact Or.inr (List.mem_cons_of_mem r h2)
      · intro q hq
        rcases List.mem_cons.mp hq with h | h
        · exact h ▸ le_trans (Nat.le_of_not_lt hlt) h3
        · exact h4 q h

theorem get_latest_deadline_spec (s : Store) (h : s.deadlines ≠ []) :
    ∃ row, get_latest_deadline s = some row ∧ row ∈ s.deadlines ∧
      ∀ r ∈ s.deadlines, r.created_at ≤ row.created_at := by
  unfold get_latest_deadline
  rcases hd : s.deadlines with _ | ⟨d, rest⟩
  · exact absurd hd h
  · rw [List.foldl_cons]
    rcases latest_aux rest d with ⟨m2, h1, h2, h3, h4⟩
    refine ⟨m2, h1, ?_, ?_⟩
    · rcases h2 with h2 | h2
      · exact h2 ▸ List.mem_cons_self d rest
      · exact List.mem_cons_of_mem d h2
    · intro r hr
      rcases List.mem_cons.mp hr with h | h
      · exact h ▸ h3
      · exact h4 r h

theorem contains_completed_users (c : List (Nat × Int)) (d : Nat) (u : Int) :
    ((c.filter (fun q => q.1 == d)).map (fun q => q.2)).contains u =
      c.any (fun p => p.1 == d && p.2 == u) := by
  induction c with
  | nil => rfl
  | cons p rest ih =>
    by_cases hd : p.1 = d
    · have hb : (p.1 == d) = true := by simpa using hd
      have hcomm : (u == p.2) = (p.2 == u) := by
        by_cases h : u = p.2
        · simp [h]
        · have h2 : ¬ p.2 = u := fun e => h e.symm
          simp [h, h2]
      simp only [List.filter_cons, hb, if_true, List.map_cons,
        List.contains_cons, List.any_cons, Bool.true_and]
      rw [ih, hcomm]
    · have hb : (p.1 == d) = false := by simpa using hd
      simp only [List.filter_cons, hb, Bool.false_eq_true, if_false,
        List.any_cons, Bool.false_and, Bool.false_or]
      exact ih

/-- Claim C3: with at least one deadline stored, the remind operation
selects a most-recently-created deadline row; it broadcasts a mention
list holding exactly the roster members with no completion row for
that deadline id, and when no such member exists it reports full
completion instead, broadcasting nothing. -/
theorem deadline_remind_spec (s : Store)
    (dbRows : Option (List (Int × String))) (h : s.deadlines ≠ []) :
    ∃ row, get_latest_deadline s = some row ∧ row ∈ s.deadlines ∧
      (∀ r ∈ s.deadlines, r.created_at ≤ row.created_at) ∧
      ((deadline_remind s dbRows = RemindResult.allCompleted row.title ∧
          ∀ p ∈ get_all_member_ids dbRows,
            pairMem s row.deadline_id p.1 = true) ∨
       (∃ l, deadline_remind s dbRows = RemindResult.broadcast row.title l ∧
          l ≠ [] ∧
          ∀ p : Int × String, p ∈ l ↔
            (p ∈ get_all_member_ids dbRows ∧
              pairMem s row.deadline_id p.1 = false))) := by
  rcases get_latest_deadline_spec s h with ⟨row, hrow, hmem, hmax⟩
  refine ⟨row, hrow, hmem, hmax, ?_⟩
  have hcont : ∀ u : Int,
      ((s.completions.filter (fun q => q.1 == row.deadline_id)).map
        (fun q => q.2)).contains u = pairMem s row.deadline_id u :=
    fun u => contains_completed_users s.completions row.deadline_id u
  have heq : deadline_remind s dbRows =
      (if ((get_all_member_ids dbRows).filter (fun p =>
          !(((s.completions.filter (fun q => q.1 == row.deadline_id)).map
            (fun q => q.2)).contains p.1))).isEmpty then
        RemindResult.allCompleted row.title
      else
        RemindResult.broadcast row.title
          ((get_all_member_ids dbRows).filter (fun p =>
            !(((s.completions.filter (fun q => q.1 == row.deadline_id)).map
              (fun q => q.2)).contains p.1)))) := by
    unfold deadline_remind
    rw [hrow]
  by_cases hpe : ((get_all_member_ids dbRows).filter (fun p =>
      !(((s.completions.filter (fun q => q.1 == row.deadline_id)).map
        (fun q => q.2)).contains p.1))).isEmpty = true
  · left
    constructor
    · rw [heq, if_pos hpe]
    · intro p hp
      have hnil := List.isEmpty_iff.mp hpe
      have hnp := List.filter_eq_nil_iff.mp hnil p hp
      have h3 : (!(((s.completions.filter (fun q =>
          q.1 == row.deadline_id)).map (fun q => q.2)).contains p.1)) = false :=
        Bool.eq_false_iff.mpr hnp
      rw [← hcont p.1]
      simpa using h3
  · right
    have hpef : ((get_all_member_ids dbRows).filter (fun p =>
        !(((s.completions.filter (fun q => q.1 == row.deadline_id)).map
          (fun q => q.2)).contains p.1))).isEmpty = false :=
      Bool.eq_false_iff.mpr hpe
    refine ⟨_, by rw [heq, if_neg hpe], ?_, ?_⟩
    · intro hc
      rw [hc] at hpef
      simp at hpef
    · intro p
      rw [List.mem_filter]
      constructor
      · rintro ⟨h1, h2⟩
        refine ⟨h1, ?_⟩
        rw [← hcont p.1]
        simpa using h2
      · rintro ⟨h1, h2⟩
        refine ⟨h1, ?_⟩
        rw [← hcont p.1] at h2
        rw [h2]
        rfl

theorem deadline_remind_spec_witness :
    ∃ row, get_latest_deadline W1 = some row ∧ row ∈ W1.deadlines ∧
      (∀ r ∈ W1.deadlines, r.created_at ≤ row.created_at) ∧
      ((deadline_remind W1 none = RemindResult.allCompleted row.title ∧
          ∀ p ∈ get_all_member_ids none,
            pairMem W1 row.deadline_id p.1 = true) ∨
       (∃ l, deadline_remind W1 none = RemindResult.broadcast row.title l ∧
          l ≠ [] ∧
          ∀ p : Int × String, p ∈ l ↔
            (p ∈ get_all_member_ids none ∧
              pairMem W1 row.deadline_id p.1 = false))) :=
  deadline_remind_spec W1 none (by decide)

end StudyBot
